import Mathlib

/-!
Shallow embedding of the transcription session controller
(`src/hooks/useSpeechRecognition.tsx`) and the history-save effect of
`src/App.tsx` from the izy-transcription-live repository.

JavaScript strings are modelled as lists of characters (`Str`); string
concatenation is list append, and `String.prototype.trim` is `jsTrim`
(drop whitespace from both ends).  React state is modelled as an explicit
`ControllerState` record; each event handler is a pure function from the
pre-state to the post-state, paired (where the claims need it) with the
engine call the handler makes (`EngineCall`).
-/

namespace Izy

/-- JavaScript strings, modelled as lists of characters. -/
abbrev Str : Type := List Char

/-- Shorthand turning a Lean string literal into the `Str` model. -/
def str (s : String) : Str := s.data

/-- JS `String.prototype.trim`: drop whitespace from both ends of the string. -/
def jsTrim (s : Str) : Str :=
  (s.dropWhile Char.isWhitespace).rdropWhile Char.isWhitespace

/-- The values of `stopReasonRef`: `'user' | 'paused' | 'auto'`. -/
inductive StopReason : Type
  | user
  | paused
  | auto
deriving DecidableEq, Repr

/-- Which engine method an event handler invokes: `recognition.start()`,
`recognition.stop()`, or no engine call at all (`idle`). -/
inductive EngineCall : Type
  | start
  | stop
  | idle
deriving DecidableEq, Repr

/-- The state of the `useSpeechRecognition` hook: the six `useState` cells
(`isListening`, `isPaused`, `isSpeaking`, `liveTranscript`, `finalTranscript`,
`error`), the `stopReasonRef` cell, and the recognition object's `lang`
property.  The `stateRef` snapshot always mirrors these cells, so it is not
modelled separately. -/
structure ControllerState where
  isListening : Bool
  isPaused : Bool
  isSpeaking : Bool
  liveTranscript : Str
  finalTranscript : Str
  error : Option Str
  stopReason : StopReason
  lang : Str
deriving DecidableEq, Repr

/-- The initial hook state: all flags false, both transcripts empty, no error,
`stopReasonRef` initialised to `'auto'`, default language `'pt-BR'`. -/
def initialState : ControllerState where
  isListening := false
  isPaused := false
  isSpeaking := false
  liveTranscript := []
  finalTranscript := []
  error := none
  stopReason := .auto
  lang := str "pt-BR"

/-- One result slot of a `SpeechRecognitionEvent`: `transcript` is the text of
the first (best) alternative, i.e. `results[i][0].transcript`, and `isFinal`
is `results[i].isFinal`. -/
structure Slot where
  transcript : Str
  isFinal : Bool
deriving DecidableEq, Repr

/-- A `SpeechRecognitionEvent`: the slot list `results` and the starting
index `resultIndex` from which the handler's loop runs. -/
structure SpeechEvent where
  resultIndex : Nat
  results : List Slot
deriving DecidableEq, Repr

/-- The `for` loop of `processResults`: fold the slots, appending final-flagged
slot texts to the `final` accumulator and the others to `interim`. -/
def processLoop (slots : List Slot) (finalAcc interim : Str) : Str × Str :=
  match slots with
  | [] => (finalAcc, interim)
  | sl :: rest =>
      if sl.isFinal then processLoop rest (finalAcc ++ sl.transcript) interim
      else processLoop rest finalAcc (interim ++ sl.transcript)

/-- `processResults`: mark speech activity, run the slot loop from
`event.resultIndex`, store the grown final transcript and set the live
transcript to final + interim.  (The 500 ms timer that later clears
`isSpeaking` is a wall-clock concern outside the text model.) -/
def processResults (s : ControllerState) (e : SpeechEvent) : ControllerState :=
  let pr := processLoop (e.results.drop e.resultIndex) s.finalTranscript []
  { s with isSpeaking := true
           finalTranscript := pr.1
           liveTranscript := pr.1 ++ pr.2 }

/-- `handleEnd`: clear the speaking flag; if the engine stopped on its own
(`stopReason == 'auto'`) while listening and not paused, call
`recognition.start()` and leave everything else unchanged; otherwise finalize
by trimming `liveTranscript` and storing it in both transcript cells. -/
def handleEnd (s : ControllerState) : ControllerState × EngineCall :=
  if s.stopReason = .auto ∧ s.isListening ∧ ¬s.isPaused then
    ({ s with isSpeaking := false }, .start)
  else
    let fv := jsTrim s.liveTranscript
    ({ s with isSpeaking := false, finalTranscript := fv, liveTranscript := fv }, .idle)

/-- The error-message table of `recognition.onerror`, with its fallback
`"Um erro inesperado ocorreu: " + code`. -/
def classifyError (code : Str) : Str :=
  if code = str "no-speech" then
    str "Nenhum som foi detectado. Verifique se seu microfone está funcionando."
  else if code = str "audio-capture" then
    str "Falha ao capturar áudio. O microfone está sendo usado por outro aplicativo?"
  else if code = str "not-allowed" then
    str "Permissão para usar o microfone foi negada ou bloqueada."
  else if code = str "network" then
    str "Ocorreu um erro de rede. Verifique sua conexão com a internet."
  else
    str "Um erro inesperado ocorreu: " ++ code

/-- `recognition.onerror`: `'aborted'` returns early with no state change;
every other code stores the classified message in `error`, sets
`stopReasonRef` to `'user'` and clears `isListening`, `isPaused` and
`isSpeaking`.  The handler never invokes an engine method. -/
def handleError (s : ControllerState) (code : Str) : ControllerState × EngineCall :=
  if code = str "aborted" then (s, .idle)
  else
    ({ s with error := some (classifyError code)
              stopReason := .user
              isListening := false
              isPaused := false
              isSpeaking := false }, .idle)

/-- `startListening(lang)`: set the language, clear error and both
transcripts, raise `isListening`, clear `isPaused`, set `stopReasonRef` to
`'auto'`.  (It then calls `recognition.start()` unconditionally.) -/
def startListening (s : ControllerState) (lang : Str) : ControllerState :=
  { s with lang := lang
           error := none
           liveTranscript := []
           finalTranscript := []
           isListening := true
           isPaused := false
           stopReason := .auto }

/-- `stopListening`: set `stopReasonRef` to `'user'`, clear `isListening` and
`isPaused`.  (It then calls `recognition.stop()` unconditionally.) -/
def stopListening (s : ControllerState) : ControllerState :=
  { s with stopReason := .user, isListening := false, isPaused := false }

/-- `pauseListening`: set `stopReasonRef` to `'paused'` and raise `isPaused`.
(It then calls `recognition.stop()` unconditionally.) -/
def pauseListening (s : ControllerState) : ControllerState :=
  { s with stopReason := .paused, isPaused := true }

/-- `resumeListening`: trim the current `liveTranscript`; if the result is
non-empty, store it plus a single separating space in both transcript cells;
set `stopReasonRef` to `'auto'` and clear `isPaused`.  (It then calls
`recognition.start()` unconditionally.) -/
def resumeListening (s : ControllerState) : ControllerState :=
  let trimmedFinal := jsTrim s.liveTranscript
  if trimmedFinal ≠ [] then
    { s with finalTranscript := trimmedFinal ++ [' ']
             liveTranscript := trimmedFinal ++ [' ']
             stopReason := .auto
             isPaused := false }
  else
    { s with stopReason := .auto, isPaused := false }

/-- A history entry (`Transcript` in `src/components/HistoryModal.tsx`):
`id` is `Date.now()`, `date` the human-readable timestamp, `content` the
trimmed final text. -/
structure Transcript where
  id : Nat
  date : Str
  content : Str
deriving DecidableEq, Repr

/-- The history-save effect of `App.tsx` (lines 61-82), as a function of its
dependency values `isListening`, `finalTranscript` and `history`, plus the
fresh `id` (`Date.now()`) and `date` used when a new entry is created.
When not listening and the final transcript is non-empty, it trims the
content, checks for an entry with equal trimmed content, and prepends a new
entry if the trimmed content is non-empty and not already present.  (The
effect also copies `finalTranscript` into the editable document; that part is
outside the history model.) -/
def historySaveEffect (isListening : Bool) (finalTranscript : Str)
    (history : List Transcript) (tid : Nat) (date : Str) : List Transcript :=
  if ¬isListening ∧ finalTranscript ≠ [] then
    let trimmedContent := jsTrim finalTranscript
    let isAlreadySaved := history.any (fun item => jsTrim item.content == trimmedContent)
    if trimmedContent.length > 0 ∧ isAlreadySaved = false then
      { id := tid, date := date, content := trimmedContent } :: history
    else history
  else history

/-- `handleDeleteTranscript`: remove the entry with the given id. -/
def handleDeleteTranscript (history : List Transcript) (tid : Nat) : List Transcript :=
  history.filter (fun item => item.id != tid)

/-- An engine event delivered while a session runs: a result batch or a
termination (`onend`). -/
inductive EngineEvent : Type
  | result (e : SpeechEvent)
  | ended
deriving Repr

/-- Process one engine event (state part only). -/
def stepEvent (s : ControllerState) (ev : EngineEvent) : ControllerState :=
  match ev with
  | .result e => processResults s e
  | .ended => (handleEnd s).1

/-- Process a sequence of engine events. -/
def runEvents (s : ControllerState) (evs : List EngineEvent) : ControllerState :=
  evs.foldl stepEvent s

/-- Controller states reachable from the initial hook state by any sequence
of user operations and engine events. -/
inductive Reachable : ControllerState → Prop
  | init : Reachable initialState
  | start (s : ControllerState) (lang : Str) :
      Reachable s → Reachable (startListening s lang)
  | stop (s : ControllerState) : Reachable s → Reachable (stopListening s)
  | pause (s : ControllerState) : Reachable s → Reachable (pauseListening s)
  | resume (s : ControllerState) : Reachable s → Reachable (resumeListening s)
  | result (s : ControllerState) (e : SpeechEvent) :
      Reachable s → Reachable (processResults s e)
  | ended (s : ControllerState) : Reachable s → Reachable (handleEnd s).1
  | err (s : ControllerState) (code : Str) :
      Reachable s → Reachable (handleError s code).1

/-- Concatenation of the texts of the final-flagged slots, in order. -/
def finalConcat : List Slot → Str
  | [] => []
  | sl :: rest =>
      if sl.isFinal then sl.transcript ++ finalConcat rest else finalConcat rest

/-- Concatenation of the texts of the non-final slots, in order. -/
def interimConcat : List Slot → Str
  | [] => []
  | sl :: rest =>
      if sl.isFinal then interimConcat rest else sl.transcript ++ interimConcat rest

theorem processLoop_eq (slots : List Slot) (f i : Str) :
    processLoop slots f i = (f ++ finalConcat slots, i ++ interimConcat slots) := by
  induction slots generalizing f i with
  | nil => simp [processLoop, finalConcat, interimConcat]
  | cons sl rest ih =>
      by_cases h : sl.isFinal = true <;>
        simp [processLoop, finalConcat, interimConcat, h, ih, List.append_assoc]

theorem dropWhile_of_rdrop {α : Type} (p : α → Bool) (s : List α) :
    List.dropWhile p ((s.dropWhile p).rdropWhile p) = (s.dropWhile p).rdropWhile p := by
  obtain ⟨r, hr⟩ := List.rdropWhile_prefix (p := p) (l := s.dropWhile p)
  cases hu : (s.dropWhile p).rdropWhile p with
  | nil => simp
  | cons c us =>
      have htc : s.dropWhile p = c :: (us ++ r) := by
        rw [← hr, hu, List.cons_append]
      have hne : s.dropWhile p ≠ [] := by rw [htc]; exact List.cons_ne_nil _ _
      have hc : p c = false := by
        have hhead := List.head_dropWhile_not p s hne
        have hh : (s.dropWhile p).head? = some c := by rw [htc]; rfl
        have hh2 : some ((s.dropWhile p).head hne) = some c := by
          rw [← hh, List.head?_eq_head]
        rw [Option.some_inj.mp hh2] at hhead
        exact hhead
      rw [List.dropWhile_cons_of_neg]
      simp [hc]

theorem jsTrim_idem (s : Str) : jsTrim (jsTrim s) = jsTrim s := by
  unfold jsTrim
  rw [dropWhile_of_rdrop, List.rdropWhile_idempotent]

theorem jsTrim_nil : jsTrim [] = [] := rfl

theorem historySave_twice (b : Bool) (c c₂ : Str) (h : List Transcript)
    (id₁ id₂ : Nat) (d₁ d₂ : Str) (hc : jsTrim c = jsTrim c₂) :
    historySaveEffect b c₂ (historySaveEffect b c h id₁ d₁) id₂ d₂ =
      historySaveEffect b c h id₁ d₁ := by
  by_cases hb : b = true
  · simp [historySaveEffect, hb]
  · have hb0 : b = false := by simpa using hb
    subst hb0
    by_cases hc2 : c₂ = []
    · simp [historySaveEffect, hc2]
    · by_cases ht2 : jsTrim c₂ = []
      · simp [historySaveEffect, hc2, ht2]
      · have htc : jsTrim c ≠ [] := by rw [hc]; exact ht2
        have hcne : c ≠ [] := by
          intro h0
          rw [h0, jsTrim_nil] at htc
          exact htc rfl
        by_cases hany : (h.any (fun item => jsTrim item.content == jsTrim c)) = true
        · have h1 : historySaveEffect false c h id₁ d₁ = h := by
            simp [historySaveEffect, hcne, hany]
          have hany2 : (h.any (fun item => jsTrim item.content == jsTrim c₂)) = true := by
            rw [← hc]; exact hany
          rw [h1]
          simp [historySaveEffect, hc2, hany2]
        · have h1 : historySaveEffect false c h id₁ d₁ =
              ⟨id₁, d₁, jsTrim c⟩ :: h := by
            simp [historySaveEffect, hcne, hany, List.length_pos, htc]
          have hany2 : ((⟨id₁, d₁, jsTrim c⟩ :: h : List Transcript).any
              (fun item => jsTrim item.content == jsTrim c₂)) = true := by
            simp [List.any_cons, jsTrim_idem, hc]
          rw [h1]
          simp [historySaveEffect, hc2, hany2]

theorem handleEnd_state_idem (s : ControllerState) :
    (handleEnd (handleEnd s).1).1 = (handleEnd s).1 := by
  cases s
  simp only [handleEnd]
  split_ifs <;> simp_all [jsTrim_idem]

/-- C1: when `onEnd` is delivered with `stopReason = Auto` while listening and
not paused, `handleEnd` re-invokes engine start and leaves `finalTranscript`,
`liveTranscript` and `isListening` unchanged; in particular, after
`start("en-US")`, one final slot `"hello"` at index 0, and a spontaneous
`onEnd`, the final transcript is `"hello"` before and after the restart and
`isListening` stays true. -/
theorem autoRestart_preserves_state (s : ControllerState)
    (hA : s.stopReason = .auto) (hL : s.isListening = true) (hP : s.isPaused = false) :
    ((handleEnd s).1.finalTranscript = s.finalTranscript ∧
     (handleEnd s).1.liveTranscript = s.liveTranscript ∧
     (handleEnd s).1.isListening = true ∧
     (handleEnd s).2 = EngineCall.start) ∧
    (let s1 := processResults (startListening initialState (str "en-US"))
        ⟨0, [⟨str "hello", true⟩]⟩
     s1.finalTranscript = str "hello" ∧
     (handleEnd s1).1.finalTranscript = str "hello" ∧
     (handleEnd s1).1.isListening = true ∧
     (handleEnd s1).2 = EngineCall.start) := by
  constructor
  · simp [handleEnd, hA, hL, hP]
  · decide

theorem autoRestart_preserves_state_witness :
    ((handleEnd (processResults (startListening initialState (str "en-US"))
        ⟨0, [⟨str "hello", true⟩]⟩)).1.finalTranscript =
      (processResults (startListening initialState (str "en-US"))
        ⟨0, [⟨str "hello", true⟩]⟩).finalTranscript ∧
     (handleEnd (processResults (startListening initialState (str "en-US"))
        ⟨0, [⟨str "hello", true⟩]⟩)).1.liveTranscript =
      (processResults (startListening initialState (str "en-US"))
        ⟨0, [⟨str "hello", true⟩]⟩).liveTranscript ∧
     (handleEnd (processResults (startListening initialState (str "en-US"))
        ⟨0, [⟨str "hello", true⟩]⟩)).1.isListening = true ∧
     (handleEnd (processResults (startListening initialState (str "en-US"))
        ⟨0, [⟨str "hello", true⟩]⟩)).2 = EngineCall.start) :=
  (autoRestart_preserves_state
    (processResults (startListening initialState (str "en-US"))
      ⟨0, [⟨str "hello", true⟩]⟩)
    (by decide) (by decide) (by decide)).1

/-- C2: `processResults` iterates the slots from `resultIndex` in order,
appends final-flagged texts to the prior final transcript and non-final texts
to a separate interim accumulator, and yields
`newFinal = prior ++ finalDelta` and `newLive = newFinal ++ interim`;
in particular a non-final `"wor"` at index 0 gives live `"wor"` with empty
final, and a subsequent final `"world"` at index 0 gives final `"world"`. -/
theorem processResults_merge (s : ControllerState) (e : SpeechEvent) :
    ((processResults s e).finalTranscript =
        s.finalTranscript ++ finalConcat (e.results.drop e.resultIndex) ∧
     (processResults s e).liveTranscript =
        (processResults s e).finalTranscript ++
          interimConcat (e.results.drop e.resultIndex)) ∧
    (let s1 := processResults (startListening initialState (str "pt-BR"))
        ⟨0, [⟨str "wor", false⟩]⟩
     s1.liveTranscript = str "wor" ∧ s1.finalTranscript = [] ∧
     (processResults s1 ⟨0, [⟨str "world", true⟩]⟩).finalTranscript =
        str "world") := by
  constructor
  · constructor
    · simp [processResults, processLoop_eq]
    · simp [processResults, processLoop_eq]
  · decide

/-- C3: when `onEnd` is delivered with `stopReason` equal to `User` or
`Paused`, `handleEnd` finalizes: it sets both transcripts to the trimmed
live transcript, makes no engine call (no restart), and leaves the paused
flag as it was — in particular for `stopReason = Paused` with the flag set,
it remains set. -/
theorem handleEnd_finalize (s : ControllerState)
    (h : s.stopReason = .user ∨ s.stopReason = .paused) :
    (handleEnd s).1.finalTranscript = jsTrim s.liveTranscript ∧
    (handleEnd s).1.liveTranscript = jsTrim s.liveTranscript ∧
    (handleEnd s).2 = EngineCall.idle ∧
    (handleEnd s).1.isPaused = s.isPaused ∧
    (s.stopReason = .paused → s.isPaused = true → (handleEnd s).1.isPaused = true) := by
  have hna : ¬(s.stopReason = StopReason.auto ∧ s.isListening = true ∧ s.isPaused = false) := by
    rcases h with h | h <;> simp [h]
  simp [handleEnd, hna]

theorem handleEnd_finalize_witness :
    ((handleEnd (pauseListening (processResults
        (startListening initialState (str "pt-BR"))
        ⟨0, [⟨str " test ", true⟩]⟩))).1.finalTranscript =
      jsTrim (pauseListening (processResults
        (startListening initialState (str "pt-BR"))
        ⟨0, [⟨str " test ", true⟩]⟩)).liveTranscript ∧
     (handleEnd (pauseListening (processResults
        (startListening initialState (str "pt-BR"))
        ⟨0, [⟨str " test ", true⟩]⟩))).1.liveTranscript =
      jsTrim (pauseListening (processResults
        (startListening initialState (str "pt-BR"))
        ⟨0, [⟨str " test ", true⟩]⟩)).liveTranscript ∧
     (handleEnd (pauseListening (processResults
        (startListening initialState (str "pt-BR"))
        ⟨0, [⟨str " test ", true⟩]⟩))).2 = EngineCall.idle ∧
     (handleEnd (pauseListening (processResults
        (startListening initialState (str "pt-BR"))
        ⟨0, [⟨str " test ", true⟩]⟩))).1.isPaused =
      (pauseListening (processResults
        (startListening initialState (str "pt-BR"))
        ⟨0, [⟨str " test ", true⟩]⟩)).isPaused ∧
     ((pauseListening (processResults
        (startListening initialState (str "pt-BR"))
        ⟨0, [⟨str " test ", true⟩]⟩)).stopReason = .paused →
      (pauseListening (processResults
        (startListening initialState (str "pt-BR"))
        ⟨0, [⟨str " test ", true⟩]⟩)).isPaused = true →
      (handleEnd (pauseListening (processResults
        (startListening initialState (str "pt-BR"))
        ⟨0, [⟨str " test ", true⟩]⟩))).1.isPaused = true)) :=
  handleEnd_finalize
    (pauseListening (processResults (startListening initialState (str "pt-BR"))
      ⟨0, [⟨str " test ", true⟩]⟩))
    (Or.inr (by decide))

/-- C4: after `pause()` and the resulting `onEnd`, calling `resume()` and then
receiving post-resume speech `w` (as a single slot, final or not) yields a
live transcript equal to the pre-pause trimmed text plus a single separating
space plus `w` when the trimmed text is non-empty, and equal to `w` with no
leading space when it is empty; `resume()` also sets `stopReason` back to
`Auto` and clears the paused flag. -/
theorem pauseResume_roundtrip (s : ControllerState) (w : Str) (b : Bool) :
    (jsTrim s.liveTranscript ≠ [] →
      (processResults (resumeListening (handleEnd (pauseListening s)).1)
          ⟨0, [⟨w, b⟩]⟩).liveTranscript =
        jsTrim s.liveTranscript ++ [' '] ++ w) ∧
    (jsTrim s.liveTranscript = [] →
      (processResults (resumeListening (handleEnd (pauseListening s)).1)
          ⟨0, [⟨w, b⟩]⟩).liveTranscript = w) ∧
    (resumeListening (handleEnd (pauseListening s)).1).stopReason = .auto ∧
    (resumeListening (handleEnd (pauseListening s)).1).isPaused = false := by
  by_cases hne : jsTrim s.liveTranscript = [] <;>
    cases b <;>
      simp [pauseListening, handleEnd, resumeListening, processResults, processLoop,
        jsTrim_idem, jsTrim_nil, hne, List.append_assoc]

theorem pauseResume_roundtrip_witness :
    (processResults (resumeListening (handleEnd (pauseListening
        { initialState with liveTranscript := str " hi " })).1)
        ⟨0, [⟨str "there", true⟩]⟩).liveTranscript =
      jsTrim ({ initialState with liveTranscript := str " hi " }).liveTranscript ++
        [' '] ++ str "there" :=
  (pauseResume_roundtrip { initialState with liveTranscript := str " hi " }
    (str "there") true).1 (by decide)

/-- C5: `recognition.onerror` swallows the `'aborted'` code with no state
change and no engine call; every other code stores the classified
human-readable message (in particular `'not-allowed'` yields the Portuguese
permission-denied message), sets `stopReason` to `User`, clears
`isListening`, `isPaused` and `isSpeaking`, and makes no engine call, so no
automatic restart happens. -/
theorem onError_policy (s : ControllerState) (code : Str) :
    (handleError s (str "aborted") = (s, EngineCall.idle)) ∧
    (code ≠ str "aborted" →
      (handleError s code).1.error = some (classifyError code) ∧
      (handleError s code).1.stopReason = .user ∧
      (handleError s code).1.isListening = false ∧
      (handleError s code).1.isPaused = false ∧
      (handleError s code).1.isSpeaking = false ∧
      (handleError s code).2 = EngineCall.idle) ∧
    classifyError (str "not-allowed") =
      str "Permissão para usar o microfone foi negada ou bloqueada." := by
  refine ⟨by simp [handleError], fun hne => ?_, by decide⟩
  simp [handleError, hne]

theorem onError_policy_witness :
    (handleError initialState (str "not-allowed")).1.error =
        some (classifyError (str "not-allowed")) ∧
      (handleError initialState (str "not-allowed")).1.stopReason = .user ∧
      (handleError initialState (str "not-allowed")).1.isListening = false ∧
      (handleError initialState (str "not-allowed")).1.isPaused = false ∧
      (handleError initialState (str "not-allowed")).1.isSpeaking = false ∧
      (handleError initialState (str "not-allowed")).2 = EngineCall.idle :=
  (onError_policy initialState (str "not-allowed")).2.1 (by decide)

/-- C6: the history save deduplicates by trimmed content: saving twice with
the same trimmed content leaves the history of the first save unchanged (so
two entries with equal trimmed content are never produced), the save is a
no-op (not an error) when the trimmed content is empty or an entry with
equal trimmed content already exists, and a successful save prepends the new
entry (most recent first). -/
theorem historySave_dedup (h : List Transcript) (c c₂ : Str)
    (id₁ id₂ : Nat) (d₁ d₂ : Str) :
    (jsTrim c = jsTrim c₂ →
      historySaveEffect false c₂ (historySaveEffect false c h id₁ d₁) id₂ d₂ =
        historySaveEffect false c h id₁ d₁) ∧
    (jsTrim c = [] → historySaveEffect false c h id₁ d₁ = h) ∧
    ((∃ e ∈ h, jsTrim e.content = jsTrim c) →
      historySaveEffect false c h id₁ d₁ = h) ∧
    (jsTrim c ≠ [] → (∀ e ∈ h, jsTrim e.content ≠ jsTrim c) →
      historySaveEffect false c h id₁ d₁ = ⟨id₁, d₁, jsTrim c⟩ :: h) := by
  refine ⟨fun hc => historySave_twice false c c₂ h id₁ id₂ d₁ d₂ hc, ?_, ?_, ?_⟩
  · intro ht
    by_cases hcn : c = []
    · simp [historySaveEffect, hcn]
    · simp [historySaveEffect, hcn, ht]
  · rintro ⟨e, he, hee⟩
    have hany : (h.any (fun item => jsTrim item.content == jsTrim c)) = true := by
      rw [List.any_eq_true]
      exact ⟨e, he, by simp [hee]⟩
    by_cases hcn : c = []
    · simp [historySaveEffect, hcn]
    · simp [historySaveEffect, hcn, hany]
  · intro ht hall
    have hcn : c ≠ [] := fun h0 => ht (by rw [h0]; rfl)
    have hany : (h.any (fun item => jsTrim item.content == jsTrim c)) = false := by
      rw [List.any_eq_false]
      intro e he
      simp [hall e he]
    simp [historySaveEffect, hcn, hany, List.length_pos, ht]

theorem historySave_dedup_witness :
    historySaveEffect false (str "a")
        (historySaveEffect false (str "a") [] 1 (str "d1")) 2 (str "d2") =
      historySaveEffect false (str "a") [] 1 (str "d1") :=
  (historySave_dedup [] (str "a") (str "a") 1 2 (str "d1") (str "d2")).1 rfl

/-- C9: delivering the same termination event twice in immediate succession
is a no-op on the second delivery: the controller state is unchanged (the
second finalize re-trims the already-trimmed live transcript), and running
the history-save effect again on the state produced by the second delivery
adds no entry, so history entries are not duplicated. -/
theorem terminationRedelivery_idempotent (s : ControllerState)
    (h : List Transcript) (id₁ id₂ : Nat) (d₁ d₂ : Str) :
    (handleEnd (handleEnd s).1).1 = (handleEnd s).1 ∧
    historySaveEffect (handleEnd (handleEnd s).1).1.isListening
        (handleEnd (handleEnd s).1).1.finalTranscript
        (historySaveEffect (handleEnd s).1.isListening
          (handleEnd s).1.finalTranscript h id₁ d₁) id₂ d₂ =
      historySaveEffect (handleEnd s).1.isListening
        (handleEnd s).1.finalTranscript h id₁ d₁ := by
  refine ⟨handleEnd_state_idem s, ?_⟩
  rw [handleEnd_state_idem s]
  exact historySave_twice _ _ _ _ _ _ _ _ rfl

/-- An active, unpaused auto-mode session: the states in which a spontaneous
engine termination is transparently restarted. -/
def ActiveUnpaused (s : ControllerState) : Prop :=
  s.stopReason = .auto ∧ s.isListening = true ∧ s.isPaused = false

theorem stepEvent_mono (s : ControllerState) (ev : EngineEvent)
    (h : ActiveUnpaused s) :
    ActiveUnpaused (stepEvent s ev) ∧
      s.finalTranscript.length ≤ (stepEvent s ev).finalTranscript.length := by
  obtain ⟨hA, hL, hP⟩ := h
  cases ev with
  | result e =>
      refine ⟨⟨hA, hL, hP⟩, ?_⟩
      have hpl := processLoop_eq (e.results.drop e.resultIndex) s.finalTranscript []
      simp only [stepEvent, processResults, hpl, List.length_append]
      omega
  | ended =>
      constructor
      · simp [stepEvent, handleEnd, hA, hL, hP, ActiveUnpaused]
      · simp [stepEvent, handleEnd, hA, hL, hP]

theorem runEvents_mono (evs : List EngineEvent) (s : ControllerState)
    (h : ActiveUnpaused s) :
    ActiveUnpaused (runEvents s evs) ∧
      s.finalTranscript.length ≤ (runEvents s evs).finalTranscript.length := by
  induction evs generalizing s with
  | nil => exact ⟨h, le_refl _⟩
  | cons ev rest ih =>
      obtain ⟨h1, h2⟩ := stepEvent_mono s ev h
      obtain ⟨h3, h4⟩ := ih (stepEvent s ev) h1
      exact ⟨h3, le_trans h2 h4⟩

/-- C7: while the session is listening, unpaused and in auto mode, every
engine event — result batches as well as spontaneous terminations handled by
the auto-restart — leaves the length of the final transcript non-decreasing:
along any event sequence, each successive prefix of the trace yields a final
transcript at least as long as the previous one. -/
theorem finalTranscript_monotone (s : ControllerState) (evs : List EngineEvent)
    (hA : s.stopReason = .auto) (hL : s.isListening = true) (hP : s.isPaused = false)
    (k : Nat) :
    (runEvents s (evs.take k)).finalTranscript.length ≤
      (runEvents s (evs.take (k + 1))).finalTranscript.length := by
  have h1 := runEvents_mono (evs.take k) s ⟨hA, hL, hP⟩
  have h2 := runEvents_mono evs[k]?.toList (runEvents s (evs.take k)) h1.1
  have h3 : runEvents s (evs.take (k + 1)) =
      runEvents (runEvents s (evs.take k)) evs[k]?.toList := by
    rw [runEvents, runEvents, runEvents, List.take_succ, List.foldl_append]
  rw [h3]
  exact h2.2

theorem finalTranscript_monotone_witness :
    (runEvents (startListening initialState (str "pt-BR"))
        ([EngineEvent.result ⟨0, [⟨str "a", true⟩]⟩, EngineEvent.ended].take 1)).finalTranscript.length ≤
      (runEvents (startListening initialState (str "pt-BR"))
        ([EngineEvent.result ⟨0, [⟨str "a", true⟩]⟩, EngineEvent.ended].take 2)).finalTranscript.length :=
  finalTranscript_monotone (startListening initialState (str "pt-BR"))
    [EngineEvent.result ⟨0, [⟨str "a", true⟩]⟩, EngineEvent.ended]
    (by decide) (by decide) (by decide) 1

/-- C8: in every controller state reachable by any sequence of user
operations (start, stop, pause, resume) and engine events (result batches,
terminations, errors), the live transcript starts with the final transcript
as a prefix.  The invariant holds even immediately after the pause/resume
seam, so the exception the specification permits there is never exercised. -/
theorem liveTranscript_prefix_invariant (s : ControllerState) (h : Reachable s) :
    ∃ t, s.liveTranscript = s.finalTranscript ++ t := by
  induction h with
  | init => exact ⟨[], rfl⟩
  | start s lang hs ih => exact ⟨[], rfl⟩
  | stop s hs ih => exact ih
  | pause s hs ih => exact ih
  | resume s hs ih =>
      simp only [resumeListening]
      split_ifs with hcond
      · exact ⟨[], by simp⟩
      · exact ih
  | result s e hs ih =>
      exact ⟨(processLoop (e.results.drop e.resultIndex) s.finalTranscript []).2, rfl⟩
  | ended s hs ih =>
      simp only [handleEnd]
      split_ifs with hcond
      · exact ih
      · exact ⟨[], by simp⟩
  | err s code hs ih =>
      simp only [handleError]
      split_ifs with hcond
      · exact ih
      · exact ih

theorem liveTranscript_prefix_invariant_witness :
    ∃ t, (resumeListening ((handleEnd (pauseListening (processResults
        (startListening initialState (str "pt-BR"))
        ⟨0, [⟨str "hi", true⟩]⟩))).1)).liveTranscript =
      (resumeListening ((handleEnd (pauseListening (processResults
        (startListening initialState (str "pt-BR"))
        ⟨0, [⟨str "hi", true⟩]⟩))).1)).finalTranscript ++ t :=
  liveTranscript_prefix_invariant _
    (Reachable.resume _ (Reachable.ended _ (Reachable.pause _ (Reachable.result _ _
      (Reachable.start _ _ Reachable.init)))))

/-- C10: the history-save effect lists `history` among its dependencies, so
it re-runs when the history changes, not only on a listening-to-not-listening
transition.  Concretely: the state reached by `start`, a final `"test"`,
`stop()` and the engine's `onEnd` is not listening and has non-empty final
transcript; running the effect saves the `"test"` entry, deleting that entry
empties the history, and the effect's re-run (triggered by the history
change) immediately recreates an entry with the same trimmed content. -/
theorem historyDelete_resave :
    ((handleEnd (stopListening (processResults
        (startListening initialState (str "pt-BR"))
        ⟨0, [⟨str "test", true⟩]⟩))).1.isListening = false ∧
     (handleEnd (stopListening (processResults
        (startListening initialState (str "pt-BR"))
        ⟨0, [⟨str "test", true⟩]⟩))).1.finalTranscript = str "test") ∧
    Reachable (handleEnd (stopListening (processResults
        (startListening initialState (str "pt-BR"))
        ⟨0, [⟨str "test", true⟩]⟩))).1 ∧
    (historySaveEffect
        (handleEnd (stopListening (processResults
          (startListening initialState (str "pt-BR"))
          ⟨0, [⟨str "test", true⟩]⟩))).1.isListening
        (handleEnd (stopListening (processResults
          (startListening initialState (str "pt-BR"))
          ⟨0, [⟨str "test", true⟩]⟩))).1.finalTranscript
        [] 1 (str "dateA") = [⟨1, str "dateA", str "test"⟩] ∧
     handleDeleteTranscript [⟨1, str "dateA", str "test"⟩] 1 = [] ∧
     historySaveEffect
        (handleEnd (stopListening (processResults
          (startListening initialState (str "pt-BR"))
          ⟨0, [⟨str "test", true⟩]⟩))).1.isListening
        (handleEnd (stopListening (processResults
          (startListening initialState (str "pt-BR"))
          ⟨0, [⟨str "test", true⟩]⟩))).1.finalTranscript
        (handleDeleteTranscript [⟨1, str "dateA", str "test"⟩] 1)
        2 (str "dateB") = [⟨2, str "dateB", str "test"⟩]) := by
  refine ⟨by decide, ?_, by decide⟩
  exact Reachable.ended _ (Reachable.stop _ (Reachable.result _ _
    (Reachable.start _ _ Reachable.init)))

end Izy
